import Mathlib

/-!
# go-commander: registry, validation, tokenizer and dispatch

A shallow embedding of `commander.go`.

Modelling decisions:

* A Go `string` is modelled as a list of characters (`Str`).  The only byte the
  code searches for is the space 0x20, which in UTF-8 occurs only as the
  encoding of U+0020, so splitting at the character `' '` yields the same
  tokens as splitting at the byte.
* A Go value that may be `nil` (a func, an interface, a slice compared with
  `nil`) is an `Option`.
* `map[string]Command` is a finite map with unique keys (`AList`).
* The commander is mutated in place in Go; here every method takes the state
  and returns the new state.
* What the code does to the outside world (writing to `c.writer`, calling a
  `RunCallback`, calling `SubCommander.Run`) is returned as a list of
  `Effect`s, in program order.
* A `Commander` interface value holds a pointer; it is a reference (`Ref`) into
  the commanders in memory (`Heap`), and `dispatch` is `executor` together with
  what its call of `SubCommander.Run` does there.
* Of go-prompt, the line editor, the code uses the document (the text and the
  word before the cursor) and `FilterHasPrefix`; both are modelled after the
  library.
-/

namespace Commander

/-- A Go string. -/
abbrev Str := List Char

/-- A Go `error` value: `none` is `nil`, `some m` is an error whose `Error()` is `m`. -/
abbrev GoError := Option Str

/-- A reference to a commander object (the pointer held by a `Commander` interface value). -/
abbrev Ref := Nat

/-- An `io.Writer`, identified by a handle. -/
abbrev Writer := Nat

/-- The handle of `os.Stdout`. -/
def osStdout : Writer := 1

/-- The type `prompt.Suggest` of go-prompt: a text and a description. -/
structure Suggest where
  Text : Str
  Description : Str := []
deriving DecidableEq

/-- The error that a `RunCallback` returns.  The Go callback receives the
commander, the command and the arguments; its error is given here from the
prefix arguments of the commander, the name of the command and the arguments.
What the callback does besides (it holds the live commander, so it can call
its methods, and it can write) is given by `Callbacks` and enters
`dispatchWith`. -/
abbrev Handler := List Str → Str → List Str → GoError

/-- The struct `Command`. -/
structure Command where
  /-- name of the command (REQUIRED) -/
  Cmd : Str
  /-- description of the command (OPTIONAL) -/
  Description : Str := []
  /-- callback which gets executed (OPTIONAL) -/
  RunCallback : Option Handler := none
  /-- callback to provide command argument suggestions (OPTIONAL) -/
  ArgumentComplete : Option (List Str → List Suggest) := none
  /-- commander to support nesting interfaces (OPTIONAL) -/
  SubCommander : Option Ref := none
  /-- list of allowed first arguments (OPTIONAL) -/
  Options : Option (List Str) := none
  /-- The unexported `map[string]struct` set: the list of its keys, without
  duplicates.  The nil map has no keys. -/
  optionsMap : List Str := []
  /-- validator function to validate arguments (OPTIONAL) -/
  Validate : Option (List Str → Bool) := none

/-- The type `commandMap`, a `map[string]Command`. -/
abbrev commandMap := AList (fun _ : Str => Command)

/-- The struct `commander` (the `prompt` field belongs to go-prompt and is left out). -/
structure commander where
  commands : commandMap
  suggestions : List Suggest
  prefixTemplate : Str
  prefixArgs : List Str
  writer : Writer

/-- What a method does to the outside world. -/
inductive Effect where
  /-- The call `fmt.Fprintf(w, ...)` wrote `text` to `w`. -/
  | write (w : Writer) (text : Str)
  /-- The call `cmd.RunCallback(c, cmd, args)` was made, for the command named `cmd`. -/
  | callback (cmd : Str) (args : List Str)
  /-- The call `cmd.SubCommander.Run(args...)` was made on the commander `sub`. -/
  | subRun (sub : Ref) (args : List Str)
  /-- The prompt loop `c.prompt.Run()` was entered. -/
  | promptRun
deriving DecidableEq

/-! ## Library functions of Go used by the code -/

/-- The function `strings.Split(s, sep)` for a separator of one character: all
substrings of `s` between occurrences of `sep`, so one more substring than there
are separators. -/
def Split (s : Str) (sep : Char) : List Str :=
  match s with
  | [] => [[]]
  | ch :: rest =>
    if ch = sep then [] :: Split rest sep
    else
      match Split rest sep with
      | [] => [[ch]]
      | first :: more => (ch :: first) :: more

/-- The function `strings.Join(elems, sep)`: the elements, with `sep` between them. -/
def Join (elems : List Str) (sep : Str) : Str :=
  match elems with
  | [] => []
  | [e] => e
  | e :: more => e ++ sep ++ Join more sep

/-- How `fmt` prints a `[]string` under the verb `%s`: the elements separated
by spaces, in square brackets. -/
def fmtStrings (xs : List Str) : Str :=
  "[".toList ++ Join xs " ".toList ++ "]".toList

/-! ## The code -/

/-- The function `New`: a commander with no commands, writing to `os.Stdout`. -/
def New (prefixTemplate : Str) : commander :=
  { suggestions := []
    commands := ∅
    prefixTemplate := prefixTemplate
    prefixArgs := []
    writer := osStdout }

/-- The method `PrefixArgs`. -/
def PrefixArgs (c : commander) : List Str :=
  c.prefixArgs

/-- The method `SetWriter`. -/
def SetWriter (c : commander) (w : Writer) : commander :=
  { c with writer := w }

/-- The method `Run`: stores the prefix arguments, enters the prompt loop, returns nil. -/
def Run (c : commander) (prefixArgs : List Str) : commander × List Effect × GoError :=
  ({ c with prefixArgs := prefixArgs }, [Effect.promptRun], none)

/-- The statement `m[o] = struct` on the key set of a `map[string]struct`. -/
def setInsert (m : List Str) (o : Str) : List Str :=
  if o ∈ m then m else m ++ [o]

/-- Lines 93 to 98 of `AddCommand`: when `Options` is not nil, `optionsMap`
becomes the set of the options. -/
def buildOptionsMap (cmd : Command) : Command :=
  match cmd.Options with
  | some opts => { cmd with optionsMap := opts.foldl setInsert [] }
  | none => cmd

/-- The method `AddCommand`: the commander after the call, and the error returned. -/
def AddCommand (c : commander) (cmd : Command) : commander × GoError :=
  if cmd.Cmd = [] then
    (c, some "Command name is missing".toList)
  else if (c.commands.lookup cmd.Cmd).isSome then
    (c, some ("Command ".toList ++ cmd.Cmd ++ " already registered".toList))
  else if cmd.SubCommander.isSome ∧ cmd.RunCallback.isSome then
    (c, some "Using a sub commander and a run callback is not supported".toList)
  else
    let cmd := buildOptionsMap cmd
    ({ c with
        commands := c.commands.insert cmd.Cmd cmd
        suggestions := c.suggestions ++ [{ Text := cmd.Cmd, Description := cmd.Description }] },
      none)

/-- The function `splitArguments`: the non-empty pieces of `strings.Split(line, " ")`. -/
def splitArguments (line : Str) : List Str :=
  let tmp := Split line ' '
  tmp.foldl (fun result arg => if arg ≠ [] then result ++ [arg] else result) []

/-- The function `SimpleSuggestions`. -/
def SimpleSuggestions (text : List Str) : List Suggest :=
  text.map (fun t => { Text := t })

/-- The function `validArguments`. -/
def validArguments (cmd : Command) (args : List Str) : Bool :=
  match cmd.Validate with
  | some validate => validate args
  | none =>
    match cmd.Options with
    | some _ =>
      match args with
      | [] => false
      | first :: _ => decide (first ∈ cmd.optionsMap)
    | none => true

/-- The method `executor`, on the line `t`: what it does, in order.  It assigns
to no field of the commander. -/
def executor (c : commander) (t : Str) : List Effect :=
  match splitArguments t with
  | [] => []
  | name :: rest =>
    match c.commands.lookup name with
    | some cmd =>
      if !validArguments cmd rest then
        [Effect.write c.writer ("Invalid arguments ".toList ++ fmtStrings rest ++ "\n".toList)]
      else
        -- lines 128 to 133 compute a local `valid` that is never read
        match cmd.RunCallback with
        | some cb =>
          match cb c.prefixArgs cmd.Cmd rest with
          | some err =>
            [Effect.callback cmd.Cmd rest,
             Effect.write c.writer ("ERROR: ".toList ++ err ++ "\n".toList)]
          | none => [Effect.callback cmd.Cmd rest]
        | none =>
          match cmd.SubCommander with
          | some sub => [Effect.subRun sub rest]
          | none => [Effect.write c.writer ("Command ".toList ++ name ++ " incomplete\n".toList)]
    | none => [Effect.write c.writer ("Command ".toList ++ name ++ " not found\n".toList)]

/-! ## The tokenizer as the spec words it -/

/-- The maximal runs of non-space characters of a line, in their order: spaces
are skipped, and a run that starts at a non-space character extends up to the
next space or the end of the line. -/
def maximalRuns : Str → List Str
  | [] => []
  | ch :: rest =>
    if ch = ' ' then maximalRuns rest
    else (ch :: rest.takeWhile (fun x => decide (x ≠ ' '))) ::
      maximalRuns (rest.dropWhile (fun x => decide (x ≠ ' ')))
termination_by line => line.length
decreasing_by
  · simp
  · have := (List.dropWhile_sublist (fun x => decide (x ≠ ' ')) (l := rest)).length_le
    simp only [List.length_cons]
    omega

/-! ## The validator and the registry as the spec words them -/

/-- The three-tier validator policy of the spec: a validator, when set, decides
alone; otherwise a set of options admits exactly the argument lists that are not
empty and whose first element is one of the options; otherwise every argument
list is valid. -/
def validPolicy (validate : Option (List Str → Bool)) (options : Option (List Str))
    (args : List Str) : Bool :=
  match validate with
  | some v => v args
  | none =>
    match options with
    | some opts => decide (∃ h : 0 < args.length, args[0] ∈ opts)
    | none => true

/-- The states a commander can be in: created by `New`, then changed by calls of
its methods `AddCommand` (failing or not), `SetWriter` and `Run`. -/
inductive Reachable : commander → Prop where
  | new (prefixTemplate : Str) : Reachable (New prefixTemplate)
  | addCommand (c : commander) (cmd : Command) :
      Reachable c → Reachable (AddCommand c cmd).1
  | setWriter (c : commander) (w : Writer) : Reachable c → Reachable (SetWriter c w)
  | run (c : commander) (prefixArgs : List Str) : Reachable c → Reachable (Run c prefixArgs).1

/-- What holds of every stored command: it is stored under its name, its
`optionsMap` has the keys of `Options`, and it has no callback together with a
sub commander. -/
def StoredOk (c : commander) : Prop :=
  ∀ name cmd, c.commands.lookup name = some cmd →
    cmd.Cmd = name ∧
    (∀ opts, cmd.Options = some opts → ∀ a, a ∈ cmd.optionsMap ↔ a ∈ opts) ∧
    ¬ (cmd.SubCommander.isSome ∧ cmd.RunCallback.isSome)

/-- The calls of a `RunCallback` among the effects: command name and arguments. -/
def handlerCalls (effects : List Effect) : List (Str × List Str) :=
  effects.filterMap fun e =>
    match e with
    | Effect.callback cmd args => some (cmd, args)
    | _ => none

/-- The number of commands in the registry, `len(c.commands)`. -/
def registrySize (c : commander) : Nat :=
  c.commands.entries.length

/-! ## Concrete commands and commanders -/

/-- A callback that returns nil. -/
def okCallback : Handler := fun _ _ _ => none

/-- The command `build` with the options `linux` and `windows`, a callback and
no validator. -/
def buildCommand : Command :=
  { Cmd := "build".toList
    RunCallback := some okCallback
    Options := some ["linux".toList, "windows".toList] }

/-- A commander with the command `build`. -/
def buildCommander : commander :=
  (AddCommand (New ">>> ".toList) buildCommand).1

/-- A command with a callback and a sub commander. -/
def bothCommand : Command :=
  { Cmd := "env".toList
    RunCallback := some okCallback
    SubCommander := some 7 }

/-- A command without a name, with a callback and a sub commander. -/
def namelessCommand : Command :=
  { Cmd := []
    RunCallback := some okCallback
    SubCommander := some 7 }

/-! ## Completion -/

/-- The type `prompt.Document` of go-prompt, as far as `completer` reads it:
the results of its methods `TextBeforeCursor` and `GetWordBeforeCursor`. -/
structure Document where
  TextBeforeCursor : Str
  GetWordBeforeCursor : Str
deriving DecidableEq

/-- The method `GetWordBeforeCursor` of go-prompt on the text before the
cursor: what follows the last space, the whole text when there is no space. -/
def wordBeforeCursor (text : Str) : Str :=
  (text.reverse.takeWhile (fun ch => decide (ch ≠ ' '))).reverse

/-- The document of go-prompt when `text` stands before the cursor. -/
def documentAt (text : Str) : Document :=
  { TextBeforeCursor := text, GetWordBeforeCursor := wordBeforeCursor text }

/-- The function `strings.IndexByte(s, ch)`: the index of the first `ch` in
`s`; `none` stands for the result -1. -/
def IndexByte (s : Str) (ch : Char) : Option Nat :=
  match s with
  | [] => none
  | x :: rest => if x = ch then some 0 else (IndexByte rest ch).map (fun i => i + 1)

/-- The function `strings.HasPrefix(s, pre)`. -/
def HasPrefix (s pre : Str) : Bool :=
  pre.isPrefixOf s

/-- The function `strings.ToUpper` on texts of ASCII characters: the character
map of Lean, which maps the letters a to z.  The function of Go maps all letters
of Unicode; `completerWith` takes it as a parameter, and `completer` is
`completerWith` at this map, used on ASCII texts. -/
def ToUpper (s : Str) : Str :=
  s.map Char.toUpper

/-- The function `filterSuggestions` of go-prompt: all suggestions when `sub`
is empty, else those whose text passes `function` against `sub`, both put in
upper case first when `ignoreCase` is set. -/
def filterSuggestions (suggestions : List Suggest) (sub : Str) (ignoreCase : Bool)
    (function : Str → Str → Bool) : List Suggest :=
  if sub = [] then suggestions
  else
    let sub := if ignoreCase then ToUpper sub else sub
    suggestions.filter fun s =>
      function (if ignoreCase then ToUpper s.Text else s.Text) sub

/-- The function `prompt.FilterHasPrefix(completions, sub, ignoreCase)` of go-prompt. -/
def FilterHasPrefix (completions : List Suggest) (sub : Str) (ignoreCase : Bool) :
    List Suggest :=
  filterSuggestions completions sub ignoreCase HasPrefix

/-- The method `completer`. -/
def completer (c : commander) (d : Document) : List Suggest :=
  let t := d.TextBeforeCursor
  let idx := IndexByte t ' '
  let t :=
    match idx with
    | some i => t.take i
    | none => t
  let suggestions :=
    match c.commands.lookup t with
    | some cmd =>
      match cmd.ArgumentComplete with
      | some argumentComplete =>
        let args :=
          match idx with
          | some i => splitArguments (d.TextBeforeCursor.drop i)
          | none => []
        argumentComplete args
      | none => []
    | none => c.suggestions
  FilterHasPrefix suggestions d.GetWordBeforeCursor true

/-! ## Commanders in memory -/

/-- The commanders in memory, each under the reference that the `Commander`
interface values pointing to it hold. -/
abbrev Heap := Ref → commander

/-- What an effect of `executor` does to the commanders in memory: the call
`SubCommander.Run(args...)` runs the method `Run` on the commander referred to;
the other effects change no commander. -/
def applyEffect (h : Heap) (e : Effect) : Heap :=
  match e with
  | Effect.subRun sub args => Function.update h sub (Run (h sub) args).1
  | _ => h

/-- Dispatching the line `t` on the commander at `self`: the method `executor`
on it, with the commanders in memory afterwards and the effects.  The prompt
loop that `Run` enters belongs to go-prompt and is not followed. -/
def dispatch (h : Heap) (self : Ref) (t : Str) : Heap × List Effect :=
  let effects := executor (h self) t
  (effects.foldl applyEffect h, effects)

/-- The calls of `SubCommander.Run` among the effects: commander and arguments. -/
def subRuns (effects : List Effect) : List (Ref × List Str) :=
  effects.filterMap fun e =>
    match e with
    | Effect.subRun sub args => some (sub, args)
    | _ => none

/-- The texts written to writers among the effects. -/
def sinkWrites (effects : List Effect) : List (Writer × Str) :=
  effects.filterMap fun e =>
    match e with
    | Effect.write w text => some (w, text)
    | _ => none

/-! ## The invariant of the registry -/

/-- The registry and the suggestion list agree: the suggestion texts are
pairwise distinct and not empty, they are the keys of the command map, there
are as many suggestions as commands, every command is stored under its name,
every suggestion has the description of the command of its text, and no stored
command has a callback together with a sub commander. -/
def RegistryInv (c : commander) : Prop :=
  (c.suggestions.map Suggest.Text).Nodup ∧
  (∀ s ∈ c.suggestions, s.Text ≠ []) ∧
  (∀ name, name ∈ c.suggestions.map Suggest.Text ↔ name ∈ c.commands.keys) ∧
  c.suggestions.length = registrySize c ∧
  (∀ name cmd, c.commands.lookup name = some cmd → cmd.Cmd = name) ∧
  (∀ s ∈ c.suggestions, ∃ cmd, c.commands.lookup s.Text = some cmd ∧
    s.Description = cmd.Description) ∧
  (∀ name cmd, c.commands.lookup name = some cmd →
    ¬ (cmd.RunCallback.isSome ∧ cmd.SubCommander.isSome))

/-- The suggestions mirror the command map: the keys of the map, newest first,
are the suggestion texts reversed, and every suggestion carries the description
of its command. -/
def Mirror (c : commander) : Prop :=
  c.commands.keys = (c.suggestions.map Suggest.Text).reverse ∧
  (∀ name cmd, c.commands.lookup name = some cmd →
    name ≠ [] ∧ { Text := name, Description := cmd.Description } ∈ c.suggestions) ∧
  (∀ s ∈ c.suggestions, ∃ cmd, c.commands.lookup s.Text = some cmd ∧
    s.Description = cmd.Description)

/-! ## The example programs -/

/-- A commander with the three commands of `examples/simple`, registered in
the order `bar`, `baz`, `foo` (the program itself registers `foo`, `bar`,
`baz`). -/
def simpleCommander : commander :=
  let c := New ">>> ".toList
  let c := (AddCommand c { Cmd := "bar".toList, RunCallback := some okCallback }).1
  let c := (AddCommand c { Cmd := "baz".toList, RunCallback := some okCallback }).1
  (AddCommand c { Cmd := "foo".toList, RunCallback := some okCallback }).1

/-- A commander with the commands `foo` and `foobar`, without completers. -/
def fooCommander : commander :=
  let c := New ">>> ".toList
  let c := (AddCommand c { Cmd := "foo".toList, RunCallback := some okCallback }).1
  (AddCommand c { Cmd := "foobar".toList, RunCallback := some okCallback }).1

/-- The `ArgumentComplete` of `addBuild` in `examples/complex`. -/
def addBuildComplete (args : List Str) : List Suggest :=
  match args with
  | [] => SimpleSuggestions ["windows".toList, "linux".toList]
  | first :: _ =>
    if first = "linux".toList then
      SimpleSuggestions ["x86".toList, "x64".toList, "arm".toList]
    else if first = "windows".toList then
      SimpleSuggestions ["x86".toList, "x64".toList]
    else []

/-- The `Validate` of `addBuild` in `examples/complex`. -/
def addBuildValidate (args : List Str) : Bool :=
  match args with
  | first :: second :: _ =>
    if first = "linux".toList then
      decide (second ∈ ["x86".toList, "x64".toList, "arm".toList])
    else if first = "windows".toList then
      decide (second ∈ ["x86".toList, "x64".toList])
    else false
  | _ => false

/-- The error of the `RunCallback` of `addBuild` in `examples/complex` with
the function `build`: the environment is the first prefix argument, and
building in `prod` fails.  What `build` prints is in `complexCallbacks`. -/
def addBuildCallback : Handler := fun prefixArgs _ _ =>
  if prefixArgs.head? = some "prod".toList then
    some "Compile error: out of memory".toList
  else none

/-- The command that `addBuild` registers. -/
def addBuildCommand : Command :=
  { Cmd := "build".toList
    ArgumentComplete := some addBuildComplete
    RunCallback := some addBuildCallback
    Validate := some addBuildValidate }

/-- The command `env` of `examples/complex`; its sub commander is at reference 1. -/
def envCommand : Command :=
  { Cmd := "env".toList
    ArgumentComplete := some fun _ => [{ Text := "prod".toList }, { Text := "dev".toList }]
    SubCommander := some 1
    Options := some ["prod".toList, "dev".toList] }

/-- The sub commander of `examples/complex`. -/
def complexChild : commander :=
  (AddCommand (New "%s>".toList) addBuildCommand).1

/-- The main commander of `examples/complex`. -/
def complexParent : commander :=
  (AddCommand (AddCommand (New ">>> ".toList) envCommand).1 addBuildCommand).1

/-- The memory of `examples/complex`: the main commander at reference 0, the
sub commander at every other reference, so at 1. -/
def complexHeap : Heap := fun r => if r = 0 then complexParent else complexChild

/-- A commander, at reference 0, with a command whose sub commander is that
commander itself. -/
def selfCommander : commander :=
  (AddCommand (New ">>> ".toList) { Cmd := "again".toList, SubCommander := some 0 }).1

/-- The memory with `selfCommander` at every reference. -/
def selfHeap : Heap := fun _ => selfCommander

/-- What the callbacks of a program do besides returning their error.  A Go
callback receives the live commander: it can call `AddCommand`, `SetWriter` and
`Run` on it, and on any commander it holds, and it can write to any writer.  For
the commander at `self`, the name of the command, the arguments and the
commanders in memory at the call, this is the commanders in memory when the
callback returns and the effects it had, in order.  It cannot be a field of
`Command`, whose type it mentions, so it stands beside the registry. -/
abbrev Callbacks := Ref → Str → List Str → Heap → Heap × List Effect

/-- Callbacks that call no method and write nothing. -/
def quietCallbacks : Callbacks := fun _ _ _ h => (h, [])

/-- The method `executor` on the commander at `self`, on the line `t`, with
callbacks that act: the commanders in memory afterwards and the effects, in
order.  The writer of the messages is read when they are written, so the error
of a callback goes to the writer that the callback left. -/
def dispatchWith (cbs : Callbacks) (h : Heap) (self : Ref) (t : Str) : Heap × List Effect :=
  match splitArguments t with
  | [] => (h, [])
  | name :: rest =>
    match (h self).commands.lookup name with
    | some cmd =>
      if !validArguments cmd rest then
        (h, [Effect.write (h self).writer
          ("Invalid arguments ".toList ++ fmtStrings rest ++ "\n".toList)])
      else
        match cmd.RunCallback with
        | some cb =>
          let after := cbs self cmd.Cmd rest h
          match cb (h self).prefixArgs cmd.Cmd rest with
          | some err =>
            (after.1, Effect.callback cmd.Cmd rest :: after.2 ++
              [Effect.write (after.1 self).writer ("ERROR: ".toList ++ err ++ "\n".toList)])
          | none => (after.1, Effect.callback cmd.Cmd rest :: after.2)
        | none =>
          match cmd.SubCommander with
          | some sub =>
            (Function.update h sub (Run (h sub) rest).1, [Effect.subRun sub rest])
          | none =>
            (h, [Effect.write (h self).writer
              ("Command ".toList ++ name ++ " incomplete\n".toList)])
    | none =>
      (h, [Effect.write (h self).writer ("Command ".toList ++ name ++ " not found\n".toList)])

/-- What the callbacks of `examples/complex` do: the function `build` prints
`Building for <target> in <env>` to `os.Stdout`, where the target is the
arguments joined by `-` and the environment the first prefix argument, or
`default`. -/
def complexCallbacks : Callbacks := fun self name args h =>
  if name = "build".toList then
    (h, [Effect.write osStdout
      ("Building for ".toList ++ Join args "-".toList ++ " in ".toList ++
        (h self).prefixArgs.head?.getD "default".toList ++ "\n".toList)])
  else (h, [])

/-- Callbacks of which the one of `build` registers a command `later` in the
commander it receives. -/
def registeringCallbacks : Callbacks := fun self name _ h =>
  if name = "build".toList then
    (Function.update h self (AddCommand (h self) { Cmd := "later".toList }).1, [])
  else (h, [])

/-- The memory of `examples/complex` after the line `env prod`. -/
def prodHeap : Heap :=
  (dispatch complexHeap 0 "env prod".toList).1

/-! ## Completion with the upper case of Go as a parameter -/

/-- The function `filterSuggestions` of go-prompt, with the function
`strings.ToUpper` of Go as the parameter `upper`. -/
def filterSuggestionsWith (upper : Str → Str) (suggestions : List Suggest) (sub : Str)
    (ignoreCase : Bool) (function : Str → Str → Bool) : List Suggest :=
  if sub = [] then suggestions
  else
    let sub := if ignoreCase then upper sub else sub
    suggestions.filter fun s =>
      function (if ignoreCase then upper s.Text else s.Text) sub

/-- The function `prompt.FilterHasPrefix` of go-prompt, with `strings.ToUpper`
as the parameter `upper`. -/
def FilterHasPrefixWith (upper : Str → Str) (completions : List Suggest) (sub : Str)
    (ignoreCase : Bool) : List Suggest :=
  filterSuggestionsWith upper completions sub ignoreCase HasPrefix

/-- The method `completer`, with `strings.ToUpper` as the parameter `upper`. -/
def completerWith (upper : Str → Str) (c : commander) (d : Document) : List Suggest :=
  let t := d.TextBeforeCursor
  let idx := IndexByte t ' '
  let t :=
    match idx with
    | some i => t.take i
    | none => t
  let suggestions :=
    match c.commands.lookup t with
    | some cmd =>
      match cmd.ArgumentComplete with
      | some argumentComplete =>
        let args :=
          match idx with
          | some i => splitArguments (d.TextBeforeCursor.drop i)
          | none => []
        argumentComplete args
      | none => []
    | none => c.suggestions
  FilterHasPrefixWith upper suggestions d.GetWordBeforeCursor true

theorem Split_ne_nil (s : Str) (sep : Char) : Split s sep ≠ [] := by
  cases s with
  | nil => simp [Split]
  | cons ch rest =>
    unfold Split
    split
    · simp
    · split <;> simp

theorem Split_cons_sep (rest : Str) (sep : Char) :
    Split (sep :: rest) sep = [] :: Split rest sep := by
  simp [Split]

theorem Split_cons_ne (ch : Char) (rest : Str) (sep : Char) (h : ch ≠ sep) :
    ∃ first more, Split rest sep = first :: more ∧
      Split (ch :: rest) sep = (ch :: first) :: more := by
  cases hs : Split rest sep with
  | nil => exact absurd hs (Split_ne_nil rest sep)
  | cons first more =>
    refine ⟨first, more, rfl, ?_⟩
    rw [Split, if_neg h, hs]

/-- A string without the separator is its own single piece. -/
theorem Split_of_not_mem (s : Str) (sep : Char) (h : sep ∉ s) : Split s sep = [s] := by
  induction s with
  | nil => simp [Split]
  | cons ch rest ih =>
    have hne : ch ≠ sep := fun e => h (by simp [e])
    have hrest : sep ∉ rest := fun e => h (by simp [e])
    rw [Split, if_neg hne, ih hrest]

/-- The first piece ends at the first separator. -/
theorem Split_append_sep (a rest : Str) (sep : Char) (h : sep ∉ a) :
    Split (a ++ sep :: rest) sep = a :: Split rest sep := by
  induction a with
  | nil => simp [Split]
  | cons ch a ih =>
    have hne : ch ≠ sep := fun e => h (by simp [e])
    have ha : sep ∉ a := fun e => h (by simp [e])
    rw [List.cons_append, Split, if_neg hne, ih ha]

/-- No piece contains the separator. -/
theorem not_mem_of_mem_Split (s : Str) (sep : Char) :
    ∀ piece ∈ Split s sep, sep ∉ piece := by
  induction s with
  | nil => simp [Split]
  | cons ch rest ih =>
    by_cases h : ch = sep
    · subst h
      rw [Split_cons_sep]
      intro piece hp
      rcases List.mem_cons.1 hp with e | e
      · simp [e]
      · exact ih piece e
    · obtain ⟨first, more, h1, h2⟩ := Split_cons_ne ch rest sep h
      rw [h2]
      rw [h1] at ih
      intro piece hp
      rcases List.mem_cons.1 hp with e | e
      · subst e
        have := ih first (by simp)
        intro hmem
        rcases List.mem_cons.1 hmem with e2 | e2
        · exact h e2.symm
        · exact this e2
      · exact ih piece (by simp [e])

/-- The pieces, put together, are the string without its separators. -/
theorem join_Split (s : Str) (sep : Char) :
    (Split s sep).flatten = s.filter (fun x => decide (x ≠ sep)) := by
  induction s with
  | nil => simp [Split]
  | cons ch rest ih =>
    by_cases h : ch = sep
    · subst h
      rw [Split_cons_sep]
      simpa using ih
    · obtain ⟨first, more, h1, h2⟩ := Split_cons_ne ch rest sep h
      rw [h2]
      rw [h1] at ih
      simp only [List.flatten_cons, List.cons_append] at ih ⊢
      rw [ih, List.filter_cons_of_pos (by simpa using h)]

/-- The loop of `splitArguments` keeps the non-empty elements. -/
theorem foldl_keep_nonempty (tmp acc : List Str) :
    tmp.foldl (fun result arg => if arg ≠ [] then result ++ [arg] else result) acc
      = acc ++ tmp.filter (fun arg => decide (arg ≠ [])) := by
  induction tmp generalizing acc with
  | nil => simp
  | cons arg tmp ih =>
    rw [List.foldl_cons, ih]
    by_cases h : arg = []
    · simp [h]
    · simp [h]

theorem splitArguments_eq_filter (line : Str) :
    splitArguments line = (Split line ' ').filter (fun arg => decide (arg ≠ [])) := by
  unfold splitArguments
  simp only [foldl_keep_nonempty, List.nil_append]

theorem splitArguments_nil : splitArguments [] = [] := by
  simp [splitArguments_eq_filter, Split]

/-- A leading space is skipped. -/
theorem splitArguments_cons_space (rest : Str) :
    splitArguments (' ' :: rest) = splitArguments rest := by
  simp [splitArguments_eq_filter, Split_cons_sep]

/-- A string without a space, when not empty, is its own single token. -/
theorem splitArguments_of_not_mem (s : Str) (hne : s ≠ []) (h : ' ' ∉ s) :
    splitArguments s = [s] := by
  simp [splitArguments_eq_filter, Split_of_not_mem s ' ' h, hne]

/-- A token that ends at a space is split off. -/
theorem splitArguments_append_space (a rest : Str) (hne : a ≠ []) (h : ' ' ∉ a) :
    splitArguments (a ++ ' ' :: rest) = a :: splitArguments rest := by
  simp [splitArguments_eq_filter, Split_append_sep a rest ' ' h, hne]

/-- A line that starts with a non-space character: its first token is the run
up to the next space, the other tokens are those of what follows the run. -/
theorem splitArguments_cons_ne (ch : Char) (rest : Str) (h : ch ≠ ' ') :
    splitArguments (ch :: rest) =
      (ch :: rest.takeWhile (fun x => decide (x ≠ ' '))) ::
        splitArguments (rest.dropWhile (fun x => decide (x ≠ ' '))) := by
  have hrun : ' ' ∉ ch :: rest.takeWhile (fun x => decide (x ≠ ' ')) := by
    intro hmem
    rcases List.mem_cons.1 hmem with e | e
    · exact h e.symm
    · simpa using List.mem_takeWhile_imp e
  have hsplit := List.takeWhile_append_dropWhile (fun x => decide (x ≠ ' ')) rest
  cases hd : rest.dropWhile (fun x => decide (x ≠ ' ')) with
  | nil =>
    rw [hd, List.append_nil] at hsplit
    rw [hsplit] at hrun ⊢
    rw [splitArguments_nil]
    exact splitArguments_of_not_mem _ (by simp) hrun
  | cons d after =>
    have hdsp : d = ' ' := by
      have := List.head?_dropWhile_not (fun x => decide (x ≠ ' ')) rest
      rw [hd] at this
      simpa using this
    subst hdsp
    rw [splitArguments_cons_space]
    rw [hd] at hsplit
    conv_lhs => rw [← hsplit, ← List.cons_append]
    exact splitArguments_append_space _ after (by simp) hrun

/-- The tokenizer computes the maximal runs of non-space characters. -/
theorem splitArguments_eq_maximalRuns (line : Str) :
    splitArguments line = maximalRuns line := by
  induction line using maximalRuns.induct with
  | case1 => rw [splitArguments_nil, maximalRuns]
  | case2 rest ih =>
    rw [splitArguments_cons_space, maximalRuns, if_pos rfl, ih]
  | case3 ch rest h ih =>
    rw [splitArguments_cons_ne ch rest h, maximalRuns, if_neg h, ih]

/-- Tokens that are not empty and hold no space are recovered from their join. -/
theorem splitArguments_Join (toks : List Str) (h : ∀ tok ∈ toks, tok ≠ [] ∧ ' ' ∉ tok) :
    splitArguments (Join toks [' ']) = toks := by
  induction toks with
  | nil => simp [Join, splitArguments_nil]
  | cons e more ih =>
    have he := h e (by simp)
    have hmore : ∀ tok ∈ more, tok ≠ [] ∧ ' ' ∉ tok := fun tok ht => h tok (by simp [ht])
    cases more with
    | nil => simpa [Join] using splitArguments_of_not_mem e he.1 he.2
    | cons e2 more =>
      have : Join (e :: e2 :: more) [' '] = e ++ ' ' :: Join (e2 :: more) [' '] := by
        simp [Join]
      rw [this, splitArguments_append_space e _ he.1 he.2, ih hmore]

/-- Every token is non-empty and holds no space. -/
theorem splitArguments_tokens (line : Str) :
    ∀ tok ∈ splitArguments line, tok ≠ [] ∧ ' ' ∉ tok := by
  intro tok htok
  rw [splitArguments_eq_filter, List.mem_filter] at htok
  exact ⟨by simpa using htok.2, not_mem_of_mem_Split line ' ' tok htok.1⟩

/-- A line of spaces has no token. -/
theorem splitArguments_spaces (line : Str) (h : ∀ ch ∈ line, ch = ' ') :
    splitArguments line = [] := by
  induction line with
  | nil => exact splitArguments_nil
  | cons ch rest ih =>
    have hch : ch = ' ' := h ch (by simp)
    subst hch
    rw [splitArguments_cons_space]
    exact ih (fun x hx => h x (by simp [hx]))

/-! ## Lemmas on the registry -/

theorem buildOptionsMap_Cmd (cmd : Command) : (buildOptionsMap cmd).Cmd = cmd.Cmd := by
  unfold buildOptionsMap; split <;> rfl

theorem buildOptionsMap_Description (cmd : Command) :
    (buildOptionsMap cmd).Description = cmd.Description := by
  unfold buildOptionsMap; split <;> rfl

theorem buildOptionsMap_RunCallback (cmd : Command) :
    (buildOptionsMap cmd).RunCallback = cmd.RunCallback := by
  unfold buildOptionsMap; split <;> rfl

theorem buildOptionsMap_ArgumentComplete (cmd : Command) :
    (buildOptionsMap cmd).ArgumentComplete = cmd.ArgumentComplete := by
  unfold buildOptionsMap; split <;> rfl

theorem buildOptionsMap_SubCommander (cmd : Command) :
    (buildOptionsMap cmd).SubCommander = cmd.SubCommander := by
  unfold buildOptionsMap; split <;> rfl

theorem buildOptionsMap_Options (cmd : Command) :
    (buildOptionsMap cmd).Options = cmd.Options := by
  unfold buildOptionsMap; split <;> rfl

theorem buildOptionsMap_Validate (cmd : Command) :
    (buildOptionsMap cmd).Validate = cmd.Validate := by
  unfold buildOptionsMap; split <;> rfl

/-- The keys of the set built by the loop over the options. -/
theorem mem_foldl_setInsert (opts acc : List Str) (a : Str) :
    a ∈ opts.foldl setInsert acc ↔ a ∈ acc ∨ a ∈ opts := by
  induction opts generalizing acc with
  | nil => simp
  | cons o opts ih =>
    rw [List.foldl_cons, ih]
    unfold setInsert
    by_cases h : o ∈ acc
    · rw [if_pos h]
      constructor
      · rintro (h1 | h1)
        · exact Or.inl h1
        · exact Or.inr (List.mem_cons_of_mem _ h1)
      · rintro (h1 | h1)
        · exact Or.inl h1
        · rcases List.mem_cons.1 h1 with e | e
          · exact Or.inl (e ▸ h)
          · exact Or.inr e
    · rw [if_neg h]
      simp only [List.mem_append, List.mem_singleton, List.mem_cons]
      tauto

theorem buildOptionsMap_optionsMap (cmd : Command) (opts : List Str)
    (h : cmd.Options = some opts) (a : Str) :
    a ∈ (buildOptionsMap cmd).optionsMap ↔ a ∈ opts := by
  unfold buildOptionsMap
  rw [h]
  simp [mem_foldl_setInsert]

/-- The three failure cases and the success case of `AddCommand`. -/
theorem AddCommand_missing (c : commander) (cmd : Command) (h : cmd.Cmd = []) :
    AddCommand c cmd = (c, some "Command name is missing".toList) := by
  unfold AddCommand
  rw [if_pos h]

theorem AddCommand_duplicate (c : commander) (cmd : Command) (h : cmd.Cmd ≠ [])
    (hdup : (c.commands.lookup cmd.Cmd).isSome) :
    AddCommand c cmd =
      (c, some ("Command ".toList ++ cmd.Cmd ++ " already registered".toList)) := by
  unfold AddCommand
  rw [if_neg h, if_pos hdup]

theorem AddCommand_conflict (c : commander) (cmd : Command) (h : cmd.Cmd ≠ [])
    (hnew : ¬ (c.commands.lookup cmd.Cmd).isSome)
    (hboth : cmd.SubCommander.isSome ∧ cmd.RunCallback.isSome) :
    AddCommand c cmd =
      (c, some "Using a sub commander and a run callback is not supported".toList) := by
  unfold AddCommand
  rw [if_neg h, if_neg hnew, if_pos hboth]

theorem AddCommand_ok (c : commander) (cmd : Command) (h : cmd.Cmd ≠ [])
    (hnew : ¬ (c.commands.lookup cmd.Cmd).isSome)
    (hexcl : ¬ (cmd.SubCommander.isSome ∧ cmd.RunCallback.isSome)) :
    AddCommand c cmd =
      ({ c with
          commands := c.commands.insert cmd.Cmd (buildOptionsMap cmd)
          suggestions := c.suggestions ++
            [{ Text := cmd.Cmd, Description := cmd.Description }] },
        none) := by
  unfold AddCommand
  rw [if_neg h, if_neg hnew, if_neg hexcl]
  simp only [buildOptionsMap_Cmd, buildOptionsMap_Description]

/-- A failing `AddCommand` returns the commander as it was. -/
theorem AddCommand_fst_of_error (c : commander) (cmd : Command)
    (h : (AddCommand c cmd).2 ≠ none) : (AddCommand c cmd).1 = c := by
  by_cases h1 : cmd.Cmd = []
  · rw [AddCommand_missing c cmd h1]
  · by_cases h2 : (c.commands.lookup cmd.Cmd).isSome
    · rw [AddCommand_duplicate c cmd h1 h2]
    · by_cases h3 : cmd.SubCommander.isSome ∧ cmd.RunCallback.isSome
      · rw [AddCommand_conflict c cmd h1 h2 h3]
      · rw [AddCommand_ok c cmd h1 h2 h3] at h
        exact absurd rfl h

theorem StoredOk_AddCommand (c : commander) (cmd : Command) (hc : StoredOk c) :
    StoredOk (AddCommand c cmd).1 := by
  by_cases herr : (AddCommand c cmd).2 = none
  · by_cases h1 : cmd.Cmd = []
    · rw [AddCommand_missing c cmd h1]; exact hc
    · by_cases h2 : (c.commands.lookup cmd.Cmd).isSome
      · rw [AddCommand_duplicate c cmd h1 h2]; exact hc
      · by_cases h3 : cmd.SubCommander.isSome ∧ cmd.RunCallback.isSome
        · rw [AddCommand_conflict c cmd h1 h2 h3]; exact hc
        · rw [AddCommand_ok c cmd h1 h2 h3]
          intro name stored hlook
          simp only at hlook
          by_cases hn : name = cmd.Cmd
          · subst hn
            rw [AList.lookup_insert] at hlook
            cases hlook
            refine ⟨buildOptionsMap_Cmd cmd, ?_, ?_⟩
            · intro opts hopts a
              rw [buildOptionsMap_Options] at hopts
              exact buildOptionsMap_optionsMap cmd opts hopts a
            · rw [buildOptionsMap_SubCommander, buildOptionsMap_RunCallback]
              exact h3
          · rw [AList.lookup_insert_ne hn] at hlook
            exact hc name stored hlook
  · rw [AddCommand_fst_of_error c cmd herr]; exact hc

/-- Every reachable commander stores well-formed commands. -/
theorem StoredOk_of_Reachable (c : commander) (hc : Reachable c) : StoredOk c := by
  induction hc with
  | new prefixTemplate =>
    intro name cmd hlook
    simp [New] at hlook
  | addCommand c cmd _ ih => exact StoredOk_AddCommand c cmd ih
  | setWriter c w _ ih => exact ih
  | run c prefixArgs _ ih => exact ih

/-- In a reachable commander the validator of a stored command follows the policy. -/
theorem validArguments_of_StoredOk (c : commander) (hc : StoredOk c) (name : Str)
    (cmd : Command) (hcmd : c.commands.lookup name = some cmd) (args : List Str) :
    validArguments cmd args = validPolicy cmd.Validate cmd.Options args := by
  obtain ⟨_, hmap, _⟩ := hc name cmd hcmd
  unfold validArguments validPolicy
  cases hv : cmd.Validate with
  | some v => rfl
  | none =>
    cases ho : cmd.Options with
    | none => rfl
    | some opts =>
      cases args with
      | nil => simp
      | cons first more => simp [hmap opts ho first]

/-- What `executor` does on a line whose first token names a stored command. -/
theorem executor_of_lookup (c : commander) (t name : Str) (rest : List Str) (cmd : Command)
    (hline : splitArguments t = name :: rest) (hcmd : c.commands.lookup name = some cmd) :
    executor c t =
      if !validArguments cmd rest then
        [Effect.write c.writer ("Invalid arguments ".toList ++ fmtStrings rest ++ "\n".toList)]
      else
        match cmd.RunCallback with
        | some cb =>
          match cb c.prefixArgs cmd.Cmd rest with
          | some err =>
            [Effect.callback cmd.Cmd rest,
             Effect.write c.writer ("ERROR: ".toList ++ err ++ "\n".toList)]
          | none => [Effect.callback cmd.Cmd rest]
        | none =>
          match cmd.SubCommander with
          | some sub => [Effect.subRun sub rest]
          | none => [Effect.write c.writer ("Command ".toList ++ name ++ " incomplete\n".toList)] := by
  simp only [executor, hline, hcmd]

/-! ## The claims -/

/-- C1: the command that a successful `AddCommand` stores under its name has
the `Validate` and `Options` of the command passed, and `validArguments` on it
is the three-tier policy: the validator when set, whatever the options; else,
with options set, true exactly when the arguments are not empty and the first
one is among the options; else true. -/
theorem validArguments_stored_policy (c : commander) (cmd : Command)
    (hok : (AddCommand c cmd).2 = none) :
    ∃ stored, (AddCommand c cmd).1.commands.lookup cmd.Cmd = some stored ∧
      stored.Validate = cmd.Validate ∧ stored.Options = cmd.Options ∧
      ∀ args, validArguments stored args = validPolicy cmd.Validate cmd.Options args := by
  by_cases h1 : cmd.Cmd = []
  · rw [AddCommand_missing c cmd h1] at hok; cases hok
  · by_cases h2 : (c.commands.lookup cmd.Cmd).isSome
    · rw [AddCommand_duplicate c cmd h1 h2] at hok; cases hok
    · by_cases h3 : cmd.SubCommander.isSome ∧ cmd.RunCallback.isSome
      · rw [AddCommand_conflict c cmd h1 h2 h3] at hok; cases hok
      · refine ⟨buildOptionsMap cmd, ?_, buildOptionsMap_Validate cmd,
          buildOptionsMap_Options cmd, ?_⟩
        · rw [AddCommand_ok c cmd h1 h2 h3]
          exact AList.lookup_insert _
        · intro args
          unfold validArguments validPolicy
          rw [buildOptionsMap_Validate, buildOptionsMap_Options]
          cases hv : cmd.Validate with
          | some v => rfl
          | none =>
            cases ho : cmd.Options with
            | none => rfl
            | some opts =>
              cases args with
              | nil => simp
              | cons first more => simp [buildOptionsMap_optionsMap cmd opts ho first]

/-- C1, at the command `build` with the options `linux` and `windows`. -/
theorem validArguments_stored_policy_witness :
    (AddCommand (New ">>> ".toList) buildCommand).2 = none ∧
    ∃ stored, (AddCommand (New ">>> ".toList) buildCommand).1.commands.lookup
        buildCommand.Cmd = some stored ∧
      stored.Validate = buildCommand.Validate ∧ stored.Options = buildCommand.Options ∧
      ∀ args, validArguments stored args
        = validPolicy buildCommand.Validate buildCommand.Options args :=
  ⟨by decide, validArguments_stored_policy (New ">>> ".toList) buildCommand (by decide)⟩

/-- C2: for a command stored in a reachable commander that has options, a
callback and no validator, and a line whose first token is its name: when the
second token exists and is among the options, the callback is called once, with
the tokens after the name (followed only by the report of its error, if any);
otherwise the only effect is the message `Invalid arguments` with the tokens
after the name, and no callback is called. -/
theorem executor_option_set (c : commander) (hc : Reachable c) (name : Str) (cmd : Command)
    (hcmd : c.commands.lookup name = some cmd)
    (opts : List Str) (hopts : cmd.Options = some opts)
    (cb : Handler) (hcb : cmd.RunCallback = some cb) (hval : cmd.Validate = none)
    (line : Str) (rest : List Str) (hline : splitArguments line = name :: rest) :
    ((∃ second, rest.head? = some second ∧ second ∈ opts) →
      executor c line = Effect.callback name rest ::
        (match cb c.prefixArgs name rest with
         | some err => [Effect.write c.writer ("ERROR: ".toList ++ err ++ "\n".toList)]
         | none => [])) ∧
    (¬ (∃ second, rest.head? = some second ∧ second ∈ opts) →
      executor c line =
        [Effect.write c.writer ("Invalid arguments ".toList ++ fmtStrings rest ++ "\n".toList)]) ∧
    (handlerCalls (executor c line) = [(name, rest)] ↔
      ∃ second, rest.head? = some second ∧ second ∈ opts) ∧
    (¬ (∃ second, rest.head? = some second ∧ second ∈ opts) →
      handlerCalls (executor c line) = []) := by
  have hok := StoredOk_of_Reachable c hc
  obtain ⟨hname, _, _⟩ := hok name cmd hcmd
  have hvalid : validArguments cmd rest = true ↔
      ∃ second, rest.head? = some second ∧ second ∈ opts := by
    rw [validArguments_of_StoredOk c hok name cmd hcmd rest, hval, hopts]
    unfold validPolicy
    cases rest with
    | nil => simp
    | cons first more => simp
  have hyes : (∃ second, rest.head? = some second ∧ second ∈ opts) →
      executor c line = Effect.callback name rest ::
        (match cb c.prefixArgs name rest with
         | some err => [Effect.write c.writer ("ERROR: ".toList ++ err ++ "\n".toList)]
         | none => []) := by
    intro h
    rw [executor_of_lookup c line name rest cmd hline hcmd, hvalid.2 h, hcb, hname]
    cases hres : cb c.prefixArgs name rest <;> simp [hres]
  have hno : ¬ (∃ second, rest.head? = some second ∧ second ∈ opts) →
      executor c line =
        [Effect.write c.writer
          ("Invalid arguments ".toList ++ fmtStrings rest ++ "\n".toList)] := by
    intro h
    have hfalse : validArguments cmd rest = false := by
      cases hv : validArguments cmd rest with
      | false => rfl
      | true => exact absurd (hvalid.1 hv) h
    rw [executor_of_lookup c line name rest cmd hline hcmd, hfalse]
    simp
  refine ⟨hyes, hno, ⟨?_, ?_⟩, ?_⟩
  · intro hcalls
    by_contra h
    rw [hno h] at hcalls
    simp [handlerCalls] at hcalls
  · intro h
    rw [hyes h]
    cases cb c.prefixArgs name rest <;> simp [handlerCalls]
  · intro h
    rw [hno h]
    simp [handlerCalls]

/-- C2, at the command `build` with the options `linux` and `windows`: the line
`build linux` calls the callback with `linux`, the line `build mac` reports
invalid arguments. -/
theorem executor_option_set_witness :
    Reachable buildCommander ∧
    buildCommander.commands.lookup "build".toList = some (buildOptionsMap buildCommand) ∧
    splitArguments "build linux".toList = ["build".toList, "linux".toList] ∧
    splitArguments "build mac".toList = ["build".toList, "mac".toList] ∧
    handlerCalls (executor buildCommander "build linux".toList)
      = [("build".toList, ["linux".toList])] ∧
    executor buildCommander "build mac".toList
      = [Effect.write buildCommander.writer
          ("Invalid arguments ".toList ++ fmtStrings ["mac".toList] ++ "\n".toList)] :=
  have hr : Reachable buildCommander := Reachable.addCommand _ _ (Reachable.new _)
  ⟨hr, rfl, by decide, by decide,
    (executor_option_set buildCommander hr "build".toList (buildOptionsMap buildCommand) rfl
      ["linux".toList, "windows".toList] rfl okCallback rfl rfl
      "build linux".toList ["linux".toList] (by decide)).2.2.1.2
      ⟨"linux".toList, rfl, by decide⟩,
    (executor_option_set buildCommander hr "build".toList (buildOptionsMap buildCommand) rfl
      ["linux".toList, "windows".toList] rfl okCallback rfl rfl
      "build mac".toList ["mac".toList] (by decide)).2.1
      (by rintro ⟨second, h1, h2⟩; cases h1; revert h2; decide)⟩

/-- C3: when `AddCommand` returns an error, the command map and the suggestion
list (the whole commander, in fact) are what they were before the call; the
error is one of the three: missing name, duplicate name, callback together with
sub commander. -/
theorem AddCommand_all_or_nothing (c : commander) (cmd : Command) (err : Str)
    (h : (AddCommand c cmd).2 = some err) :
    (AddCommand c cmd).1.commands = c.commands ∧
    (AddCommand c cmd).1.suggestions = c.suggestions ∧
    (AddCommand c cmd).1 = c ∧
    ((cmd.Cmd = [] ∧ err = "Command name is missing".toList) ∨
     ((c.commands.lookup cmd.Cmd).isSome ∧
        err = "Command ".toList ++ cmd.Cmd ++ " already registered".toList) ∨
     ((cmd.SubCommander.isSome ∧ cmd.RunCallback.isSome) ∧
        err = "Using a sub commander and a run callback is not supported".toList)) := by
  have hsame : (AddCommand c cmd).1 = c :=
    AddCommand_fst_of_error c cmd (by rw [h]; exact Option.some_ne_none err)
  refine ⟨by rw [hsame], by rw [hsame], hsame, ?_⟩
  by_cases h1 : cmd.Cmd = []
  · rw [AddCommand_missing c cmd h1] at h
    exact Or.inl ⟨h1, (Option.some.inj h).symm⟩
  · by_cases h2 : (c.commands.lookup cmd.Cmd).isSome
    · rw [AddCommand_duplicate c cmd h1 h2] at h
      exact Or.inr (Or.inl ⟨h2, (Option.some.inj h).symm⟩)
    · by_cases h3 : cmd.SubCommander.isSome ∧ cmd.RunCallback.isSome
      · rw [AddCommand_conflict c cmd h1 h2 h3] at h
        exact Or.inr (Or.inr ⟨h3, (Option.some.inj h).symm⟩)
      · rw [AddCommand_ok c cmd h1 h2 h3] at h
        cases h

/-- C3, at the second registration of `build`. -/
theorem AddCommand_all_or_nothing_witness :
    (AddCommand buildCommander buildCommand).2
      = some "Command build already registered".toList ∧
    (AddCommand buildCommander buildCommand).1.commands = buildCommander.commands ∧
    (AddCommand buildCommander buildCommand).1.suggestions = buildCommander.suggestions :=
  have h := AddCommand_all_or_nothing buildCommander buildCommand
    "Command build already registered".toList (by decide)
  ⟨by decide, h.1, h.2.1⟩

/-- C4: a command with a non-empty name that is not registered yet, and without
a callback together with a sub commander, is registered without error; then the
name looks up a command with the same name, description, callback, completer,
sub commander, options and validator; every other name looks up what it did
before, so every command registered before is still stored unchanged; and the
suggestion list is the old one with the entry of name and description appended. -/
theorem AddCommand_success (c : commander) (cmd : Command) (hname : cmd.Cmd ≠ [])
    (hnew : c.commands.lookup cmd.Cmd = none)
    (hexcl : ¬ (cmd.RunCallback.isSome ∧ cmd.SubCommander.isSome)) :
    (AddCommand c cmd).2 = none ∧
    (∃ stored, (AddCommand c cmd).1.commands.lookup cmd.Cmd = some stored ∧
      stored.Cmd = cmd.Cmd ∧ stored.Description = cmd.Description ∧
      stored.RunCallback = cmd.RunCallback ∧
      stored.ArgumentComplete = cmd.ArgumentComplete ∧
      stored.SubCommander = cmd.SubCommander ∧ stored.Options = cmd.Options ∧
      stored.Validate = cmd.Validate) ∧
    (∀ name, name ≠ cmd.Cmd →
      (AddCommand c cmd).1.commands.lookup name = c.commands.lookup name) ∧
    (∀ name old, c.commands.lookup name = some old →
      (AddCommand c cmd).1.commands.lookup name = some old) ∧
    (AddCommand c cmd).1.suggestions
      = c.suggestions ++ [{ Text := cmd.Cmd, Description := cmd.Description }] := by
  have h2 : ¬ (c.commands.lookup cmd.Cmd).isSome := by simp [hnew]
  have h3 : ¬ (cmd.SubCommander.isSome ∧ cmd.RunCallback.isSome) :=
    fun h => hexcl ⟨h.2, h.1⟩
  rw [AddCommand_ok c cmd hname h2 h3]
  refine ⟨rfl, ⟨buildOptionsMap cmd, AList.lookup_insert _, buildOptionsMap_Cmd cmd,
    buildOptionsMap_Description cmd, buildOptionsMap_RunCallback cmd,
    buildOptionsMap_ArgumentComplete cmd, buildOptionsMap_SubCommander cmd,
    buildOptionsMap_Options cmd, buildOptionsMap_Validate cmd⟩, ?_, ?_, rfl⟩
  · intro name hne
    exact AList.lookup_insert_ne hne
  · intro name old hold
    have hne : name ≠ cmd.Cmd := by
      intro e
      rw [e, hnew] at hold
      cases hold
    show AList.lookup name (AList.insert cmd.Cmd (buildOptionsMap cmd) c.commands) = some old
    rw [AList.lookup_insert_ne hne]
    exact hold

/-- C4, at the registration of `build` in a new commander. -/
theorem AddCommand_success_witness :
    buildCommand.Cmd ≠ [] ∧
    (New ">>> ".toList).commands.lookup buildCommand.Cmd = none ∧
    ¬ (buildCommand.RunCallback.isSome ∧ buildCommand.SubCommander.isSome) ∧
    (AddCommand (New ">>> ".toList) buildCommand).2 = none ∧
    (AddCommand (New ">>> ".toList) buildCommand).1.suggestions
      = [{ Text := "build".toList, Description := [] }] :=
  have h := AddCommand_success (New ">>> ".toList) buildCommand (by decide) rfl (by decide)
  ⟨by decide, rfl, by decide, h.1, h.2.2.2.2⟩

/-- C5, as stated, fails: the command `env` has a non-empty name that is not
registered, yet registering it twice fails the second time with the error of a
callback together with a sub commander, not with the error of a duplicate. -/
theorem AddCommand_twice_counterexample :
    bothCommand.Cmd ≠ [] ∧
    (New []).commands.lookup bothCommand.Cmd = none ∧
    (AddCommand (AddCommand (New []) bothCommand).1 bothCommand).2
      = some "Using a sub commander and a run callback is not supported".toList ∧
    (AddCommand (AddCommand (New []) bothCommand).1 bothCommand).2
      ≠ some ("Command ".toList ++ bothCommand.Cmd ++ " already registered".toList) :=
  ⟨by decide, rfl, by decide, by decide⟩

/-- C5, amended: for a command with a non-empty name that is not registered
yet and without a callback together with a sub commander, the first
`AddCommand` succeeds, the second one fails with `Command <name> already
registered`, and the second call leaves the size of the registry (and the whole
commander) unchanged. -/
theorem AddCommand_twice_duplicate (c : commander) (cmd : Command) (hname : cmd.Cmd ≠ [])
    (hnew : c.commands.lookup cmd.Cmd = none)
    (hexcl : ¬ (cmd.RunCallback.isSome ∧ cmd.SubCommander.isSome)) :
    (AddCommand c cmd).2 = none ∧
    (AddCommand (AddCommand c cmd).1 cmd).2
      = some ("Command ".toList ++ cmd.Cmd ++ " already registered".toList) ∧
    registrySize (AddCommand (AddCommand c cmd).1 cmd).1 = registrySize (AddCommand c cmd).1 ∧
    (AddCommand (AddCommand c cmd).1 cmd).1 = (AddCommand c cmd).1 := by
  have h2 : ¬ (c.commands.lookup cmd.Cmd).isSome := by simp [hnew]
  have h3 : ¬ (cmd.SubCommander.isSome ∧ cmd.RunCallback.isSome) :=
    fun h => hexcl ⟨h.2, h.1⟩
  have hfirst := AddCommand_ok c cmd hname h2 h3
  have hdup : ((AddCommand c cmd).1.commands.lookup cmd.Cmd).isSome := by
    rw [hfirst]
    show (AList.lookup cmd.Cmd (AList.insert cmd.Cmd (buildOptionsMap cmd) c.commands)).isSome
    rw [AList.lookup_insert]
    rfl
  have hsecond := AddCommand_duplicate (AddCommand c cmd).1 cmd hname hdup
  refine ⟨by rw [hfirst], by rw [hsecond], by rw [hsecond], by rw [hsecond]⟩

/-- C5, amended, at the command `build` registered twice in a new commander. -/
theorem AddCommand_twice_duplicate_witness :
    buildCommand.Cmd ≠ [] ∧
    (New ">>> ".toList).commands.lookup buildCommand.Cmd = none ∧
    ¬ (buildCommand.RunCallback.isSome ∧ buildCommand.SubCommander.isSome) ∧
    (AddCommand (AddCommand (New ">>> ".toList) buildCommand).1 buildCommand).2
      = some ("Command ".toList ++ buildCommand.Cmd ++ " already registered".toList) ∧
    registrySize (AddCommand (AddCommand (New ">>> ".toList) buildCommand).1 buildCommand).1
      = registrySize (AddCommand (New ">>> ".toList) buildCommand).1 :=
  have h := AddCommand_twice_duplicate (New ">>> ".toList) buildCommand
    (by decide) rfl (by decide)
  ⟨by decide, rfl, by decide, h.2.1, h.2.2.1⟩

/-- C6, as stated, fails: a command with a callback and a sub commander but
without a name is refused with the error of the missing name, not with the
error of a callback together with a sub commander. -/
theorem AddCommand_conflict_counterexample :
    (namelessCommand.RunCallback.isSome ∧ namelessCommand.SubCommander.isSome) ∧
    (AddCommand (New []) namelessCommand).2 = some "Command name is missing".toList ∧
    (AddCommand (New []) namelessCommand).2
      ≠ some "Using a sub commander and a run callback is not supported".toList :=
  ⟨by decide, by decide, by decide⟩

/-- C6, amended: a command with a callback and a sub commander is always
refused and the commander stays as it was; the error is that of a callback
together with a sub commander when the name is non-empty and not registered
yet, that of the missing name when the name is empty, and that of the duplicate
when the name is registered already. -/
theorem AddCommand_handler_and_sub (c : commander) (cmd : Command)
    (hboth : cmd.RunCallback.isSome ∧ cmd.SubCommander.isSome) :
    (AddCommand c cmd).1 = c ∧
    (cmd.Cmd ≠ [] → c.commands.lookup cmd.Cmd = none →
      (AddCommand c cmd).2
        = some "Using a sub commander and a run callback is not supported".toList) ∧
    (cmd.Cmd = [] → (AddCommand c cmd).2 = some "Command name is missing".toList) ∧
    (cmd.Cmd ≠ [] → (c.commands.lookup cmd.Cmd).isSome →
      (AddCommand c cmd).2
        = some ("Command ".toList ++ cmd.Cmd ++ " already registered".toList)) := by
  have h3 : cmd.SubCommander.isSome ∧ cmd.RunCallback.isSome := ⟨hboth.2, hboth.1⟩
  refine ⟨?_, ?_, ?_, ?_⟩
  · by_cases h1 : cmd.Cmd = []
    · rw [AddCommand_missing c cmd h1]
    · by_cases h2 : (c.commands.lookup cmd.Cmd).isSome
      · rw [AddCommand_duplicate c cmd h1 h2]
      · rw [AddCommand_conflict c cmd h1 h2 h3]
  · intro h1 hnew
    rw [AddCommand_conflict c cmd h1 (by simp [hnew]) h3]
  · intro h1
    rw [AddCommand_missing c cmd h1]
  · intro h1 h2
    rw [AddCommand_duplicate c cmd h1 h2]

/-- C6, amended, at the command `env` with a callback and a sub commander. -/
theorem AddCommand_handler_and_sub_witness :
    (bothCommand.RunCallback.isSome ∧ bothCommand.SubCommander.isSome) ∧
    (AddCommand buildCommander bothCommand).1 = buildCommander ∧
    (AddCommand buildCommander bothCommand).2
      = some "Using a sub commander and a run callback is not supported".toList :=
  have h := AddCommand_handler_and_sub buildCommander bothCommand (by decide)
  ⟨by decide, h.1, h.2.1 (by decide) rfl⟩

/-- C7: a command whose name is empty is refused with `Command name is
missing`, whatever its other fields and whatever is registered. -/
theorem AddCommand_empty_name (c : commander) (cmd : Command) (hname : cmd.Cmd = []) :
    (AddCommand c cmd).2 = some "Command name is missing".toList := by
  rw [AddCommand_missing c cmd hname]

/-- C7, at a command without a name that has a callback and a sub commander,
in a commander that has a command already. -/
theorem AddCommand_empty_name_witness :
    namelessCommand.Cmd = [] ∧
    (AddCommand buildCommander namelessCommand).2 = some "Command name is missing".toList :=
  ⟨rfl, AddCommand_empty_name buildCommander namelessCommand rfl⟩

/-- C8: the tokens of a line are its maximal runs of non-space characters, in
their order: no token is empty, no token holds a space, and the tokens put
together are the line without its spaces. -/
theorem splitArguments_maximal_runs (line : Str) :
    splitArguments line = maximalRuns line ∧
    (∀ tok ∈ splitArguments line, tok ≠ [] ∧ ' ' ∉ tok) ∧
    (splitArguments line).flatten = line.filter (fun ch => decide (ch ≠ ' ')) := by
  refine ⟨splitArguments_eq_maximalRuns line, splitArguments_tokens line, ?_⟩
  rw [← join_Split line ' ', splitArguments_eq_filter]
  generalize Split line ' ' = pieces
  induction pieces with
  | nil => rfl
  | cons piece pieces ih =>
    by_cases h : piece = []
    · subst h
      rw [List.filter_cons_of_neg (by simp)]
      simpa using ih
    · rw [List.filter_cons_of_pos (by simpa using h)]
      simp only [List.flatten_cons, ih]

/-- C9, as stated, fails: a line that is one tab consists of whitespace only,
yet it has one token, and dispatching it writes `Command <tab> not found`. -/
theorem splitArguments_tab_counterexample :
    (∀ ch ∈ "\t".toList, ch.isWhitespace = true) ∧
    splitArguments "\t".toList = ["\t".toList] ∧
    splitArguments "\t".toList ≠ [] ∧
    executor (New []) "\t".toList
      = [Effect.write osStdout "Command \t not found\n".toList] :=
  ⟨by decide, by decide, by decide, by decide⟩

/-- C9, amended: a line that is empty or consists of space characters only has
no token, and dispatching it does nothing: no write, no callback. -/
theorem executor_spaces_noop (c : commander) (line : Str) (h : ∀ ch ∈ line, ch = ' ') :
    splitArguments line = [] ∧ executor c line = [] := by
  have hs := splitArguments_spaces line h
  refine ⟨hs, ?_⟩
  simp only [executor, hs]

/-- C9, amended, at a line of three spaces. -/
theorem executor_spaces_noop_witness :
    (∀ ch ∈ "   ".toList, ch = ' ') ∧
    splitArguments "   ".toList = [] ∧ executor buildCommander "   ".toList = [] :=
  ⟨by decide, executor_spaces_noop buildCommander "   ".toList (by decide)⟩

/-- C10: tokenizing the tokens of a line joined by single spaces gives the same
tokens; the line `  a   b c ` has the tokens `a`, `b`, `c`, which joined are
`a b c`, with the same tokens. -/
theorem splitArguments_idempotent :
    (∀ s : Str, splitArguments (Join (splitArguments s) " ".toList) = splitArguments s) ∧
    splitArguments "  a   b c ".toList = ["a".toList, "b".toList, "c".toList] ∧
    Join ["a".toList, "b".toList, "c".toList] " ".toList = "a b c".toList ∧
    splitArguments "a b c".toList = ["a".toList, "b".toList, "c".toList] := by
  refine ⟨?_, by decide, by decide, by decide⟩
  intro s
  exact splitArguments_Join (splitArguments s) (splitArguments_tokens s)

/-! ## Lemmas on dispatch -/

/-- What `executor` does on a line whose first token names no command. -/
theorem executor_of_lookup_none (c : commander) (t name : Str) (rest : List Str)
    (hline : splitArguments t = name :: rest) (hno : c.commands.lookup name = none) :
    executor c t =
      [Effect.write c.writer ("Command ".toList ++ name ++ " not found\n".toList)] := by
  simp only [executor, hline, hno]

/-- What `executor` does with a command whose arguments are valid. -/
theorem executor_of_valid (c : commander) (t name : Str) (rest : List Str) (cmd : Command)
    (hline : splitArguments t = name :: rest) (hcmd : c.commands.lookup name = some cmd)
    (hvalid : validArguments cmd rest = true) :
    executor c t =
      match cmd.RunCallback with
      | some cb =>
        match cb c.prefixArgs cmd.Cmd rest with
        | some err =>
          [Effect.callback cmd.Cmd rest,
           Effect.write c.writer ("ERROR: ".toList ++ err ++ "\n".toList)]
        | none => [Effect.callback cmd.Cmd rest]
      | none =>
        match cmd.SubCommander with
        | some sub => [Effect.subRun sub rest]
        | none =>
          [Effect.write c.writer ("Command ".toList ++ name ++ " incomplete\n".toList)] := by
  rw [executor_of_lookup c t name rest cmd hline hcmd, hvalid]
  simp

/-! ## The claims, continued -/

/-- C11: when the first token of a line is not the name of a registered
command, dispatching the line writes `Command <token> not found` and a newline
to the writer, once, calls no callback and no sub commander, and leaves every
commander in memory as it was, so the registry, the suggestions and the prefix
arguments too. -/
theorem dispatch_not_found (h : Heap) (self : Ref) (line name : Str) (rest : List Str)
    (hline : splitArguments line = name :: rest)
    (hno : (h self).commands.lookup name = none) :
    (dispatch h self line).2 =
      [Effect.write (h self).writer ("Command ".toList ++ name ++ " not found\n".toList)] ∧
    handlerCalls (dispatch h self line).2 = [] ∧
    subRuns (dispatch h self line).2 = [] ∧
    (dispatch h self line).1 = h ∧
    ((dispatch h self line).1 self).commands = (h self).commands ∧
    ((dispatch h self line).1 self).suggestions = (h self).suggestions ∧
    ((dispatch h self line).1 self).prefixArgs = (h self).prefixArgs := by
  have hex := executor_of_lookup_none (h self) line name rest hline hno
  have h1 : (dispatch h self line).2 =
      [Effect.write (h self).writer ("Command ".toList ++ name ++ " not found\n".toList)] := by
    simp only [dispatch, hex]
  have h2 : (dispatch h self line).1 = h := by
    simp only [dispatch, hex, List.foldl_cons, List.foldl_nil, applyEffect]
  refine ⟨h1, ?_, ?_, h2, by rw [h2], by rw [h2], by rw [h2]⟩
  · rw [h1]; simp [handlerCalls]
  · rw [h1]; simp [subRuns]

/-- C11, at the line `deploy now` in the main commander of `examples/complex`. -/
theorem dispatch_not_found_witness :
    splitArguments "deploy now".toList = ["deploy".toList, "now".toList] ∧
    (complexHeap 0).commands.lookup "deploy".toList = none ∧
    (dispatch complexHeap 0 "deploy now".toList).2 =
      [Effect.write (complexHeap 0).writer
        ("Command ".toList ++ "deploy".toList ++ " not found\n".toList)] ∧
    (dispatch complexHeap 0 "deploy now".toList).1 = complexHeap :=
  have h := dispatch_not_found complexHeap 0 "deploy now".toList "deploy".toList
    ["now".toList] (by decide) rfl
  ⟨by decide, rfl, h.1, h.2.2.2.1⟩

/-- Callbacks that do nothing make `dispatchWith` the `dispatch` of `executor`. -/
theorem dispatchWith_quiet (h : Heap) (self : Ref) (t : Str) :
    dispatchWith quietCallbacks h self t = dispatch h self t := by
  unfold dispatchWith dispatch executor quietCallbacks
  cases hs : splitArguments t with
  | nil => rfl
  | cons name rest =>
    cases hl : (h self).commands.lookup name with
    | none => simp [hl, applyEffect]
    | some cmd =>
      cases hv : validArguments cmd rest with
      | false => simp [hl, hv, applyEffect]
      | true =>
        cases hc : cmd.RunCallback with
        | some cb =>
          cases hr : cb (h self).prefixArgs cmd.Cmd rest <;>
            simp [hl, hv, hc, hr, applyEffect]
        | none =>
          cases hsub : cmd.SubCommander <;>
            simp [hl, hv, hc, hsub, applyEffect, Run]

/-- C12, as stated, fails.  In `examples/complex` after `env prod`, the line
`build linux x64` is valid and its callback fails with `Compile error: out of
memory`; the callback has printed before, so the sink, `os.Stdout`, receives two
lines.  And a failing callback that registers a command `later` in the
commander it receives leaves a registry with that command, so that the line
`later` dispatched next is not answered as it was before. -/
theorem dispatch_handler_error_counterexample :
    splitArguments "build linux x64".toList
      = ["build".toList, "linux".toList, "x64".toList] ∧
    (∃ cmd cb, (prodHeap 1).commands.lookup "build".toList = some cmd ∧
      cmd.RunCallback = some cb ∧
      validArguments cmd ["linux".toList, "x64".toList] = true ∧
      cb (prodHeap 1).prefixArgs cmd.Cmd ["linux".toList, "x64".toList]
        = some "Compile error: out of memory".toList) ∧
    (prodHeap 1).writer = osStdout ∧
    sinkWrites (dispatchWith complexCallbacks prodHeap 1 "build linux x64".toList).2
      = [(osStdout, "Building for linux-x64 in prod\n".toList),
         (osStdout, "ERROR: Compile error: out of memory\n".toList)] ∧
    (prodHeap 1).commands.lookup "later".toList = none ∧
    (((dispatchWith registeringCallbacks prodHeap 1 "build linux x64".toList).1 1).commands.lookup
      "later".toList).isSome ∧
    (dispatchWith registeringCallbacks prodHeap 1 "later".toList).2
      = [Effect.write osStdout "Command later not found\n".toList] ∧
    (dispatchWith registeringCallbacks
        (dispatchWith registeringCallbacks prodHeap 1 "build linux x64".toList).1 1
        "later".toList).2
      = [Effect.write osStdout "Command later incomplete\n".toList] :=
  ⟨by decide, ⟨_, _, rfl, rfl, by decide, by decide⟩, rfl, by decide, rfl, by decide,
    by decide, by decide⟩

/-- C12, amended: when the callback of a registered command returns an error
with the message `m` on valid arguments, `executor` itself writes one line,
`ERROR: m`, after whatever the callback wrote, to the writer the callback
left, and changes nothing itself: the commanders in memory are as the callback
left them, and a line dispatched next is dispatched on them.  When the callback
calls no method and writes nothing, the sink receives the one line, the
commanders are unchanged, and the next line is dispatched as it would have been
without the failing one. -/
theorem dispatchWith_handler_error (cbs : Callbacks) (h : Heap) (self : Ref)
    (line name : Str) (rest : List Str) (cmd : Command) (cb : Handler) (m : Str)
    (hline : splitArguments line = name :: rest)
    (hcmd : (h self).commands.lookup name = some cmd)
    (hcb : cmd.RunCallback = some cb)
    (hvalid : validArguments cmd rest = true)
    (herr : cb (h self).prefixArgs cmd.Cmd rest = some m) :
    (dispatchWith cbs h self line).1 = (cbs self cmd.Cmd rest h).1 ∧
    (dispatchWith cbs h self line).2 =
      Effect.callback cmd.Cmd rest :: (cbs self cmd.Cmd rest h).2 ++
        [Effect.write ((cbs self cmd.Cmd rest h).1 self).writer
          ("ERROR: ".toList ++ m ++ "\n".toList)] ∧
    (∀ next, dispatchWith cbs (dispatchWith cbs h self line).1 self next
      = dispatchWith cbs (cbs self cmd.Cmd rest h).1 self next) ∧
    (cbs self cmd.Cmd rest h = (h, []) →
      (dispatchWith cbs h self line).1 = h ∧
      sinkWrites (dispatchWith cbs h self line).2 =
        [((h self).writer, "ERROR: ".toList ++ m ++ "\n".toList)] ∧
      ∀ next, dispatchWith cbs (dispatchWith cbs h self line).1 self next
        = dispatchWith cbs h self next) := by
  have hrun : dispatchWith cbs h self line =
      ((cbs self cmd.Cmd rest h).1,
        Effect.callback cmd.Cmd rest :: (cbs self cmd.Cmd rest h).2 ++
          [Effect.write ((cbs self cmd.Cmd rest h).1 self).writer
            ("ERROR: ".toList ++ m ++ "\n".toList)]) := by
    unfold dispatchWith
    simp only [hline, hcmd, hvalid, hcb, herr, Bool.not_true]
    rfl
  refine ⟨by rw [hrun], by rw [hrun], fun next => by rw [hrun], ?_⟩
  intro hquiet
  rw [hrun, hquiet]
  refine ⟨rfl, ?_, fun next => rfl⟩
  simp [sinkWrites]

/-- C12, amended, in `examples/complex` after `env prod`: the line `build
linux x64` calls the callback, which prints, and then the error is written; the
commanders stay as they were. -/
theorem dispatchWith_handler_error_witness :
    splitArguments "build linux x64".toList
      = ["build".toList, "linux".toList, "x64".toList] ∧
    (prodHeap 1).commands.lookup "build".toList = some (buildOptionsMap addBuildCommand) ∧
    (dispatchWith complexCallbacks prodHeap 1 "build linux x64".toList).2 =
      [Effect.callback "build".toList ["linux".toList, "x64".toList],
       Effect.write osStdout "Building for linux-x64 in prod\n".toList,
       Effect.write osStdout "ERROR: Compile error: out of memory\n".toList] ∧
    (dispatchWith complexCallbacks prodHeap 1 "build linux x64".toList).1 = prodHeap ∧
    sinkWrites (dispatchWith quietCallbacks prodHeap 1 "build linux x64".toList).2 =
      [(osStdout, "ERROR: Compile error: out of memory\n".toList)] :=
  have h := dispatchWith_handler_error complexCallbacks prodHeap 1
    "build linux x64".toList "build".toList ["linux".toList, "x64".toList]
    (buildOptionsMap addBuildCommand) addBuildCallback "Compile error: out of memory".toList
    (by decide) rfl rfl (by decide) (by decide)
  have hq := dispatchWith_handler_error quietCallbacks prodHeap 1
    "build linux x64".toList "build".toList ["linux".toList, "x64".toList]
    (buildOptionsMap addBuildCommand) addBuildCallback "Compile error: out of memory".toList
    (by decide) rfl rfl (by decide) (by decide)
  ⟨by decide, rfl, h.2.1, h.1, (hq.2.2.2 rfl).2.1⟩

/-- C13, as stated, fails: the command `again` has the commander it is
registered in as its sub commander and no callback; dispatching `again x` in it
makes the prefix arguments of the child the tokens after the name, and the
child being the parent, the prefix arguments of the parent change with them. -/
theorem dispatch_sub_commander_counterexample :
    splitArguments "again x".toList = ["again".toList, "x".toList] ∧
    (∃ cmd, (selfHeap 0).commands.lookup "again".toList = some cmd ∧
      cmd.RunCallback.isNone ∧ cmd.SubCommander = some 0 ∧
      validArguments cmd ["x".toList] = true) ∧
    (dispatch selfHeap 0 "again x".toList).2 = [Effect.subRun 0 ["x".toList]] ∧
    (selfHeap 0).prefixArgs = [] ∧
    ((dispatch selfHeap 0 "again x".toList).1 0).prefixArgs = ["x".toList] ∧
    ((dispatch selfHeap 0 "again x".toList).1 0).prefixArgs ≠ (selfHeap 0).prefixArgs :=
  ⟨by decide, ⟨_, rfl, rfl, rfl, rfl⟩, by decide, rfl, by decide, by decide⟩

/-- C13, amended: for a registered command with a sub commander and no
callback, and a line whose first token is its name and whose other tokens are
valid, dispatching the line calls `Run` of the sub commander with the tokens
after the first, in order, and nothing else; the prefix arguments of the sub
commander become these tokens and its other fields stay; every other commander
stays as it was, so the parent too, with its prefix arguments, when the sub
commander is not the parent itself. -/
theorem dispatch_sub_commander (h : Heap) (self : Ref) (line name : Str) (rest : List Str)
    (cmd : Command) (sub : Ref)
    (hline : splitArguments line = name :: rest)
    (hcmd : (h self).commands.lookup name = some cmd)
    (hcb : cmd.RunCallback = none) (hsub : cmd.SubCommander = some sub)
    (hvalid : validArguments cmd rest = true) :
    (dispatch h self line).2 = [Effect.subRun sub rest] ∧
    (dispatch h self line).1 sub = { h sub with prefixArgs := rest } ∧
    ((dispatch h self line).1 sub).prefixArgs = rest ∧
    (∀ other, other ≠ sub → (dispatch h self line).1 other = h other) ∧
    (sub ≠ self → ((dispatch h self line).1 self).prefixArgs = (h self).prefixArgs) := by
  have hex := executor_of_valid (h self) line name rest cmd hline hcmd hvalid
  rw [hcb, hsub] at hex
  simp only at hex
  have h1 : (dispatch h self line).2 = [Effect.subRun sub rest] := by
    simp only [dispatch, hex]
  have h2 : (dispatch h self line).1 = Function.update h sub { h sub with prefixArgs := rest } := by
    simp only [dispatch, hex, List.foldl_cons, List.foldl_nil, applyEffect, Run]
  have h3 : ∀ other, other ≠ sub → (dispatch h self line).1 other = h other := by
    intro other hne
    rw [h2, Function.update_noteq hne]
  refine ⟨h1, ?_, ?_, h3, ?_⟩
  · rw [h2, Function.update_same]
  · rw [h2, Function.update_same]
  · intro hne
    rw [h3 self (Ne.symm hne)]

/-- C13, amended, in `examples/complex`: the line `env prod build` gives the
sub commander the prefix arguments `prod`, `build`, and leaves those of the main
commander empty. -/
theorem dispatch_sub_commander_witness :
    splitArguments "env prod build".toList
      = ["env".toList, "prod".toList, "build".toList] ∧
    (complexHeap 0).commands.lookup "env".toList = some (buildOptionsMap envCommand) ∧
    (dispatch complexHeap 0 "env prod build".toList).2
      = [Effect.subRun 1 ["prod".toList, "build".toList]] ∧
    ((dispatch complexHeap 0 "env prod build".toList).1 1).prefixArgs
      = ["prod".toList, "build".toList] ∧
    ((dispatch complexHeap 0 "env prod build".toList).1 0).prefixArgs
      = (complexHeap 0).prefixArgs :=
  have h := dispatch_sub_commander complexHeap 0 "env prod build".toList "env".toList
    ["prod".toList, "build".toList] (buildOptionsMap envCommand) 1
    (by decide) rfl rfl rfl (by decide)
  ⟨by decide, rfl, h.1, h.2.2.1, h.2.2.2.2 (by decide)⟩

/-- C14: for a command stored in a reachable commander and a line that names
it with valid arguments, `executor` does one of three things, by the fields
set: with a callback it calls the callback with the tokens after the name (and
then only reports its error, if any); with a sub commander it calls `Run` of the
sub commander with these tokens; with neither it writes `Command <name>
incomplete`.  Each happens exactly when its fields are set, and no stored
command has a callback and a sub commander. -/
theorem executor_one_of_three (c : commander) (hc : Reachable c) (name : Str) (cmd : Command)
    (hcmd : c.commands.lookup name = some cmd)
    (line : Str) (rest : List Str) (hline : splitArguments line = name :: rest)
    (hvalid : validArguments cmd rest = true) :
    ¬ (cmd.RunCallback.isSome ∧ cmd.SubCommander.isSome) ∧
    (∀ cb, cmd.RunCallback = some cb →
      executor c line = Effect.callback name rest ::
        (match cb c.prefixArgs name rest with
         | some err => [Effect.write c.writer ("ERROR: ".toList ++ err ++ "\n".toList)]
         | none => [])) ∧
    (∀ sub, cmd.SubCommander = some sub → executor c line = [Effect.subRun sub rest]) ∧
    (cmd.RunCallback = none → cmd.SubCommander = none →
      executor c line =
        [Effect.write c.writer ("Command ".toList ++ name ++ " incomplete\n".toList)]) ∧
    (handlerCalls (executor c line) = [(name, rest)] ↔ cmd.RunCallback.isSome) ∧
    ((∃ sub, subRuns (executor c line) = [(sub, rest)]) ↔ cmd.SubCommander.isSome) ∧
    (Effect.write c.writer ("Command ".toList ++ name ++ " incomplete\n".toList)
        ∈ executor c line ↔
      cmd.RunCallback = none ∧ cmd.SubCommander = none) := by
  obtain ⟨hname, _, hexcl⟩ := StoredOk_of_Reachable c hc name cmd hcmd
  have hex := executor_of_valid c line name rest cmd hline hcmd hvalid
  rw [hname] at hex
  cases hcb : cmd.RunCallback with
  | some cb =>
    have hsubnone : cmd.SubCommander = none := by
      cases hs : cmd.SubCommander with
      | none => rfl
      | some sub => exact absurd ⟨by simp [hs], by simp [hcb]⟩ hexcl
    rw [hcb] at hex
    simp only at hex
    rw [hex, hsubnone]
    cases hres : cb c.prefixArgs name rest with
    | none => simp [handlerCalls, subRuns, hres]
    | some err => simp [handlerCalls, subRuns, hres]
  | none =>
    rw [hcb] at hex
    simp only at hex
    cases hs : cmd.SubCommander with
    | some sub =>
      rw [hs] at hex
      simp only at hex
      rw [hex]
      simp [handlerCalls, subRuns]
    | none =>
      rw [hs] at hex
      simp only at hex
      rw [hex]
      simp [handlerCalls, subRuns]

/-- C14, in the main commander of `examples/complex`: `env prod` enters the
sub commander. -/
theorem executor_one_of_three_witness :
    Reachable complexParent ∧
    complexParent.commands.lookup "env".toList = some (buildOptionsMap envCommand) ∧
    splitArguments "env prod".toList = ["env".toList, "prod".toList] ∧
    validArguments (buildOptionsMap envCommand) ["prod".toList] = true ∧
    executor complexParent "env prod".toList = [Effect.subRun 1 ["prod".toList]] :=
  have hr : Reachable complexParent :=
    Reachable.addCommand _ _ (Reachable.addCommand _ _ (Reachable.new _))
  ⟨hr, rfl, by decide, by decide,
    (executor_one_of_three complexParent hr "env".toList (buildOptionsMap envCommand) rfl
      "env prod".toList ["prod".toList] (by decide) (by decide)).2.2.1 1 rfl⟩

/-! ## The registry and the suggestions -/

theorem Mirror_New (prefixTemplate : Str) : Mirror (New prefixTemplate) := by
  refine ⟨?_, ?_, ?_⟩
  · simp [New]
  · intro name cmd hlook
    simp [New] at hlook
  · intro s hs
    simp [New] at hs

theorem Mirror_AddCommand (c : commander) (cmd : Command) (hc : Mirror c) :
    Mirror (AddCommand c cmd).1 := by
  by_cases h1 : cmd.Cmd = []
  · rw [AddCommand_missing c cmd h1]; exact hc
  · by_cases h2 : (c.commands.lookup cmd.Cmd).isSome
    · rw [AddCommand_duplicate c cmd h1 h2]; exact hc
    · by_cases h3 : cmd.SubCommander.isSome ∧ cmd.RunCallback.isSome
      · rw [AddCommand_conflict c cmd h1 h2 h3]; exact hc
      · rw [AddCommand_ok c cmd h1 h2 h3]
        obtain ⟨hkeys, hcmds, hsugg⟩ := hc
        have hfresh : cmd.Cmd ∉ c.commands.keys := by
          intro hmem
          exact h2 (AList.lookup_isSome.2 (AList.mem_keys.2 hmem))
        refine ⟨?_, ?_, ?_⟩
        · show (AList.insert cmd.Cmd (buildOptionsMap cmd) c.commands).keys = _
          have hins : (AList.insert cmd.Cmd (buildOptionsMap cmd) c.commands).keys
              = cmd.Cmd :: c.commands.keys := by
            have hnot : cmd.Cmd ∉ c.commands := fun hmem => hfresh (AList.mem_keys.1 hmem)
            simp only [AList.keys, AList.insert_entries_of_neg hnot, List.keys_cons]
          rw [hins, hkeys]
          simp
        · intro name stored hlook
          simp only at hlook
          by_cases hn : name = cmd.Cmd
          · subst hn
            rw [AList.lookup_insert] at hlook
            cases hlook
            refine ⟨h1, ?_⟩
            rw [buildOptionsMap_Description]
            simp
          · rw [AList.lookup_insert_ne hn] at hlook
            obtain ⟨hne, hmem⟩ := hcmds name stored hlook
            exact ⟨hne, List.mem_append_left _ hmem⟩
        · intro s hs
          simp only at hs
          rcases List.mem_append.1 hs with hold | hnew
          · obtain ⟨stored, hlook, hdesc⟩ := hsugg s hold
            have hn : s.Text ≠ cmd.Cmd := by
              intro e
              rw [e] at hlook
              rw [hlook] at h2
              exact h2 rfl
            refine ⟨stored, ?_, hdesc⟩
            show AList.lookup s.Text (AList.insert cmd.Cmd (buildOptionsMap cmd) c.commands) = _
            rw [AList.lookup_insert_ne hn]
            exact hlook
          · have hs2 : s = { Text := cmd.Cmd, Description := cmd.Description } := by
              simpa using hnew
            subst hs2
            exact ⟨buildOptionsMap cmd, AList.lookup_insert _,
              (buildOptionsMap_Description cmd).symm⟩

/-- In every reachable commander the suggestions mirror the command map. -/
theorem Mirror_of_Reachable (c : commander) (hc : Reachable c) : Mirror c := by
  induction hc with
  | new prefixTemplate => exact Mirror_New prefixTemplate
  | addCommand c cmd _ ih => exact Mirror_AddCommand c cmd ih
  | setWriter c w _ ih => exact ih
  | run c prefixArgs _ ih => exact ih

/-- C20: in every commander reached from `New` by calls of `AddCommand`,
failing or not (and of `SetWriter` and `Run`), the suggestion texts are pairwise
distinct and not empty, they are the keys of the command map, there are as many
suggestions as commands, every command is stored under its name, every
suggestion has the description of its command, and no stored command has a
callback together with a sub commander. -/
theorem RegistryInv_of_Reachable (c : commander) (hc : Reachable c) : RegistryInv c := by
  obtain ⟨hkeys, hcmds, hsugg⟩ := Mirror_of_Reachable c hc
  have hstored := StoredOk_of_Reachable c hc
  refine ⟨?_, ?_, ?_, ?_, ?_, hsugg, ?_⟩
  · have hnodup := AList.keys_nodup c.commands
    rw [hkeys] at hnodup
    exact List.nodup_reverse.1 hnodup
  · intro s hs
    obtain ⟨stored, hlook, _⟩ := hsugg s hs
    exact (hcmds s.Text stored hlook).1
  · intro name
    rw [hkeys, List.mem_reverse]
  · have hlen : c.commands.keys.length = c.commands.entries.length := by
      simp [AList.keys, List.keys]
    unfold registrySize
    rw [← hlen, hkeys]
    simp
  · intro name stored hlook
    exact (hstored name stored hlook).1
  · intro name stored hlook hboth
    exact (hstored name stored hlook).2.2 ⟨hboth.2, hboth.1⟩

/-- C20, at the commander of `examples/simple` after a failing second
registration of `bar`. -/
theorem RegistryInv_of_Reachable_witness :
    Reachable (AddCommand simpleCommander { Cmd := "bar".toList }).1 ∧
    RegistryInv (AddCommand simpleCommander { Cmd := "bar".toList }).1 :=
  have hr : Reachable (AddCommand simpleCommander { Cmd := "bar".toList }).1 :=
    Reachable.addCommand _ _ (Reachable.addCommand _ _
      (Reachable.addCommand _ _ (Reachable.addCommand _ _ (Reachable.new _))))
  ⟨hr, RegistryInv_of_Reachable _ hr⟩

/-! ## Lemmas on completion -/

/-- The index of the first space cuts the text into the part before the first
space and the part from it on. -/
theorem IndexByte_space (t : Str) :
    match IndexByte t ' ' with
    | some i =>
      t.take i = t.takeWhile (fun x => decide (x ≠ ' ')) ∧
      t.drop i = t.dropWhile (fun x => decide (x ≠ ' '))
    | none =>
      t.takeWhile (fun x => decide (x ≠ ' ')) = t ∧
      t.dropWhile (fun x => decide (x ≠ ' ')) = [] := by
  induction t with
  | nil => simp [IndexByte]
  | cons x rest ih =>
    by_cases hx : x = ' '
    · subst hx
      simp [IndexByte]
    · unfold IndexByte
      rw [if_neg hx]
      cases hi : IndexByte rest ' ' with
      | none =>
        rw [hi] at ih
        simp only [Option.map_none']
        rw [List.takeWhile_cons_of_pos (by simpa using hx),
          List.dropWhile_cons_of_pos (by simpa using hx)]
        exact ⟨by rw [ih.1], ih.2⟩
      | some i =>
        rw [hi] at ih
        simp only [Option.map_some']
        rw [List.takeWhile_cons_of_pos (by simpa using hx),
          List.dropWhile_cons_of_pos (by simpa using hx)]
        exact ⟨by rw [List.take_succ_cons, ih.1], by rw [List.drop_succ_cons, ih.2]⟩

/-- The method `completer` in terms of the part of the text before its first
space and the part from that space on. -/
theorem completer_eq (c : commander) (d : Document) :
    completer c d =
      FilterHasPrefix
        (match c.commands.lookup (d.TextBeforeCursor.takeWhile (fun x => decide (x ≠ ' '))) with
         | some cmd =>
           match cmd.ArgumentComplete with
           | some argumentComplete =>
             argumentComplete
               (splitArguments (d.TextBeforeCursor.dropWhile (fun x => decide (x ≠ ' '))))
           | none => []
         | none => c.suggestions)
        d.GetWordBeforeCursor true := by
  have h := IndexByte_space d.TextBeforeCursor
  unfold completer
  dsimp only
  generalize IndexByte d.TextBeforeCursor ' ' = idx at h ⊢
  cases idx with
  | none =>
    simp only at h ⊢
    rw [h.1, h.2, splitArguments_nil]
  | some i =>
    simp only at h ⊢
    rw [h.1, h.2]

/-- A text that is a name without space, followed by nothing or by a space and
more: the part before the first space is the name. -/
theorem takeWhile_name (name rest : Str) (hname : ' ' ∉ name)
    (hrest : rest = [] ∨ ∃ r, rest = ' ' :: r) :
    (name ++ rest).takeWhile (fun x => decide (x ≠ ' ')) = name ∧
    (name ++ rest).dropWhile (fun x => decide (x ≠ ' ')) = rest := by
  have hall : ∀ a ∈ name, (fun x => decide (x ≠ ' ')) a = true := by
    intro a ha
    have : a ≠ ' ' := fun e => hname (e ▸ ha)
    simpa using this
  have hr : rest.takeWhile (fun x => decide (x ≠ ' ')) = [] ∧
      rest.dropWhile (fun x => decide (x ≠ ' ')) = rest := by
    rcases hrest with h | ⟨r, h⟩
    · subst h; simp
    · subst h; simp
  constructor
  · rw [List.takeWhile_append_of_pos hall, hr.1, List.append_nil]
  · rw [List.dropWhile_append_of_pos hall, hr.2]

/-- The suggestions that pass the filter when case is ignored. -/
theorem mem_FilterHasPrefix (l : List Suggest) (w : Str) (s : Suggest) :
    s ∈ FilterHasPrefix l w true ↔ s ∈ l ∧ ToUpper w <+: ToUpper s.Text := by
  unfold FilterHasPrefix filterSuggestions
  by_cases hw : w = []
  · subst hw
    simp [ToUpper]
  · rw [if_neg hw]
    simp [List.mem_filter, HasPrefix]

theorem FilterHasPrefix_sublist (l : List Suggest) (w : Str) (b : Bool) :
    List.Sublist (FilterHasPrefix l w b) l := by
  unfold FilterHasPrefix filterSuggestions
  by_cases hw : w = []
  · rw [if_pos hw]
  · rw [if_neg hw]
    exact List.filter_sublist _

theorem FilterHasPrefix_nil (w : Str) (b : Bool) : FilterHasPrefix [] w b = [] := by
  unfold FilterHasPrefix filterSuggestions
  by_cases hw : w = []
  · rw [if_pos hw]
  · rw [if_neg hw]
    rfl

/-- In a reachable commander the part of a text before its first space names
no command when the first token of the text names none, or there is no token. -/
theorem lookup_takeWhile_none (c : commander) (hc : Reachable c) (text : Str)
    (hfirst : ∀ name, (splitArguments text).head? = some name →
      c.commands.lookup name = none) :
    c.commands.lookup (text.takeWhile (fun x => decide (x ≠ ' '))) = none := by
  have hempty : c.commands.lookup [] = none := by
    cases hl : c.commands.lookup [] with
    | none => rfl
    | some cmd => exact absurd rfl ((Mirror_of_Reachable c hc).2.1 [] cmd hl).1
  cases text with
  | nil => simpa using hempty
  | cons ch rest =>
    by_cases hch : ch = ' '
    · subst hch
      simpa using hempty
    · rw [List.takeWhile_cons_of_pos (by simpa using hch)]
      apply hfirst
      rw [splitArguments_cons_ne ch rest hch]
      rfl

/-! ## The claims on completion -/

/-- C15: in a reachable commander, when the first token of the text before the
cursor names no registered command, or there is no token, the completion is the
suggestion list of the commands filtered: a sublist of it, in the order of
registration, that holds every registered command whose name starts with the
word before the cursor. -/
theorem completer_command_names (c : commander) (hc : Reachable c) (text word : Str)
    (hfirst : ∀ name, (splitArguments text).head? = some name →
      c.commands.lookup name = none) :
    completer c { TextBeforeCursor := text, GetWordBeforeCursor := word }
      = FilterHasPrefix c.suggestions word true ∧
    List.Sublist (completer c { TextBeforeCursor := text, GetWordBeforeCursor := word })
      c.suggestions ∧
    (∀ name cmd, c.commands.lookup name = some cmd → word <+: name →
      { Text := name, Description := cmd.Description }
        ∈ completer c { TextBeforeCursor := text, GetWordBeforeCursor := word }) := by
  have heq : completer c { TextBeforeCursor := text, GetWordBeforeCursor := word }
      = FilterHasPrefix c.suggestions word true := by
    rw [completer_eq]
    simp only [lookup_takeWhile_none c hc text hfirst]
  refine ⟨heq, ?_, ?_⟩
  · rw [heq]
    exact FilterHasPrefix_sublist _ _ _
  · intro name cmd hcmd hpre
    rw [heq, mem_FilterHasPrefix]
    exact ⟨((Mirror_of_Reachable c hc).2.1 name cmd hcmd).2, List.IsPrefix.map _ hpre⟩

/-- C15, with `bar`, `baz`, `foo` registered in this order: the text `b` is
completed to `bar`, then `baz`, and not to `foo`. -/
theorem completer_command_names_witness :
    Reachable simpleCommander ∧
    (∀ name, (splitArguments "b".toList).head? = some name →
      simpleCommander.commands.lookup name = none) ∧
    completer simpleCommander { TextBeforeCursor := "b".toList, GetWordBeforeCursor := "b".toList }
      = [{ Text := "bar".toList }, { Text := "baz".toList }] ∧
    List.Sublist
      (completer simpleCommander
        { TextBeforeCursor := "b".toList, GetWordBeforeCursor := "b".toList })
      simpleCommander.suggestions :=
  have hr : Reachable simpleCommander :=
    Reachable.addCommand _ _ (Reachable.addCommand _ _
      (Reachable.addCommand _ _ (Reachable.new _)))
  have hfirst : ∀ name, (splitArguments "b".toList).head? = some name →
      simpleCommander.commands.lookup name = none := by
    intro name hname
    have hb : (splitArguments "b".toList).head? = some "b".toList := by decide
    rw [hb] at hname
    cases hname
    rfl
  have h := completer_command_names simpleCommander hr "b".toList "b".toList hfirst
  ⟨hr, hfirst, h.1.trans (by decide), h.2.1⟩

/-- C16: when the part of the text before its first space (the whole text when
it has no space) is the name of a registered command without an argument
completer, the completion is empty, whatever the word before the cursor. -/
theorem completer_no_argument_completer (c : commander) (name rest word : Str)
    (cmd : Command) (hname : ' ' ∉ name) (hrest : rest = [] ∨ ∃ r, rest = ' ' :: r)
    (hcmd : c.commands.lookup name = some cmd) (hnone : cmd.ArgumentComplete = none) :
    completer c { TextBeforeCursor := name ++ rest, GetWordBeforeCursor := word } = [] := by
  rw [completer_eq]
  dsimp only
  rw [(takeWhile_name name rest hname hrest).1, hcmd]
  simp only [hnone]
  exact FilterHasPrefix_nil _ _

/-- C16, with `foo` and `foobar` registered: the text `foo`, just typed, is
completed to nothing, though `foobar` starts with it. -/
theorem completer_no_argument_completer_witness :
    ' ' ∉ "foo".toList ∧
    (∃ cmd, fooCommander.commands.lookup "foo".toList = some cmd ∧
      cmd.ArgumentComplete = none) ∧
    (fooCommander.commands.lookup "foobar".toList).isSome ∧
    "foo".toList <+: "foobar".toList ∧
    completer fooCommander
      { TextBeforeCursor := "foo".toList ++ [], GetWordBeforeCursor := "foo".toList } = [] :=
  ⟨by decide, ⟨_, rfl, rfl⟩, by decide, by decide,
    completer_no_argument_completer fooCommander "foo".toList [] "foo".toList _
      (by decide) (Or.inl rfl) rfl rfl⟩

/-- The method `completer` is `completerWith` at the upper case of Lean. -/
theorem completer_eq_completerWith (c : commander) (d : Document) :
    completer c d = completerWith ToUpper c d :=
  rfl

/-- C19: in the main commander of `examples/complex` the first token of the
text ` build linux ` is `build`, which `executor` looks up and which has an
argument completer; yet `completer` takes the empty text before the first space
for the name, finds no command and returns the command names, while without
the leading space it returns what the completer of `build` gives for `linux`. -/
theorem completer_leading_space :
    (splitArguments " build linux ".toList).head? = some "build".toList ∧
    (∃ cmd, complexParent.commands.lookup "build".toList = some cmd ∧
      cmd.ArgumentComplete = some addBuildComplete) ∧
    handlerCalls (executor complexParent " build linux x64".toList)
      = [("build".toList, ["linux".toList, "x64".toList])] ∧
    completer complexParent (documentAt " build linux ".toList)
      = [{ Text := "env".toList }, { Text := "build".toList }] ∧
    completer complexParent (documentAt " build linux ".toList) = complexParent.suggestions ∧
    completer complexParent (documentAt "build linux ".toList)
      = addBuildComplete ["linux".toList] :=
  ⟨by decide, ⟨_, rfl, rfl⟩, by decide, by decide, by decide, by decide⟩

end Commander
